import Mathlib

/-!
# apiGithubGo: backup of a user's most recently pushed repositories

A shallow embedding of `main.go`.  Pure parts of the program are Lean functions.
The calls that leave the process (the HTTP request, `git`, the file system, the
clock) are replaced by the value they return, supplied by an environment record, so
that every combination of successes and failures can be quantified over.

Library functions whose code is not part of the repository are taken as parameters
(`time.Time.String`, `json.Decoder.Decode`) or modelled after their documentation
(`filepath.Walk`, `filepath.Rel`, `Time.Format`).  `sort.Slice` appears twice.  What
the program owes to sorting alone is proved for every behaviour that meets the contract
its documentation states (`SortSlice`).  Stability, which that contract leaves open, is
settled on the implementation of Go 1.19 and later (`sortSlice`, the pattern-defeating
quicksort `pdqsort_func` of package `sort`), whose generator of pseudo-random numbers
is a parameter.

The deferred calls `zipWriter.Close()` and `zipFile.Close()` of `createZipArchive`,
whose results the code drops, have their outcomes in the environment as well.

The goroutines of `getAndPrintRecentRepositories` share no variable: each one is
described by its own sequence of calls.  How the goroutines interleave is not
represented; the summary loop runs after `wg.Wait()` and reads the slice `repos` only.
-/

namespace ApiGithubGo

/-! ## Data model -/

/-- A Go `error` value, identified by its message (`nil` is `none : Option Error`). -/
abbrev Error := String

/-- A `time.Time`, identified by the instant it denotes, counted in whole time units
from a fixed origin. -/
abbrev Time := Int

/-- The method `Time.After`: `t.After(u)` reports whether `t` is later than `u`. -/
def Time.After (t u : Time) : Bool := decide (u < t)

/-- The struct `Repository` (main.go, lines 20-23). -/
structure Repository where
  Name : String
  LastModified : Time
deriving DecidableEq, Repr

/-! ## Ranking and selection: `sort.Slice` and the truncation -/

/-- The requirement Go puts on a `less` function: a strict weak ordering. -/
def StrictWeakOrder {α : Type} (less : α → α → Bool) : Prop :=
  (∀ a, less a a = false) ∧
  (∀ a b c, less a b = true → less b c = true → less a c = true) ∧
  (∀ a b c, less a b = true → less a c = true ∨ less c b = true)

/-- The library function `sort.Slice(x, less)` on slices of `Repository`, known by its
documented contract only: it reorders `x` (it only ever swaps elements), and for a
strict weak ordering `less` no later element is `less` than an earlier one.
Its documentation adds: "The sort is not guaranteed to be stable: equal elements may be
reversed from their original order."  So nothing is assumed about the order of elements
neither of which is `less` than the other. -/
structure SortSlice where
  sort : (Repository → Repository → Bool) → List Repository → List Repository
  perm : ∀ less l, (sort less l).Perm l
  sorted : ∀ less l, StrictWeakOrder less →
    (sort less l).Pairwise (fun a b => less b a = false)

/-- The comparison closure of lines 48-50:
`func(i, j int) bool { return repos[i].LastModified.After(repos[j].LastModified) }`. -/
def lessRecent (a b : Repository) : Bool := a.LastModified.After b.LastModified

/-- Lines 48-54 of `getAndPrintRecentRepositories`: sort by `LastModified` with `After`,
then keep the first 100 when there are more. -/
def rankAndSelect (S : SortSlice) (repos : List Repository) : List Repository :=
  let repos := S.sort lessRecent repos
  if repos.length > 100 then repos.take 100 else repos

/-- Insertion sort meets the contract of `sort.Slice`; it keeps equal elements in their
original order. -/
def insertionSortSlice : SortSlice where
  sort less l := l.insertionSort (fun a b => less b a = false)
  perm less l := List.perm_insertionSort _ l
  sorted less l h := by
    obtain ⟨hirr, htr, hneg⟩ := h
    have htot : ∀ a b, less b a = false ∨ less a b = false := by
      intro a b
      cases hba : less b a with
      | false => exact Or.inl rfl
      | true =>
        right
        cases hab : less a b with
        | false => rfl
        | true => have := htr a b a hab hba; rw [hirr a] at this; cases this
    have htrans : ∀ a b c, less b a = false → less c b = false → less c a = false := by
      intro a b c h1 h2
      cases hca : less c a with
      | false => rfl
      | true =>
        rcases hneg c a b hca with h | h
        · rw [h] at h2; cases h2
        · rw [h] at h1; cases h1
    exact @List.sorted_insertionSort _ (fun a b => less b a = false) _
      ⟨htot⟩ ⟨htrans⟩ l

/-- Stability of a selection, in the words of the specification: records of equal
`LastModified` that appear in the output appear there in the relative order they have
in the input. -/
def StableSelection (input output : List Repository) : Prop :=
  ∀ t : Time, List.Sublist (output.filter (fun r => r.LastModified = t))
    (input.filter (fun r => r.LastModified = t))

/-! ## Go's `sort.Slice` (package `sort`, Go 1.19 and later) -/

/-- The call `data.Less(i, j)` on the slice `x`: `less` on the elements at `i` and `j`. -/
def lessAt {α : Type} (less : α → α → Bool) (x : List α) (i j : Nat) : Bool :=
  match x[i]?, x[j]? with
  | some a, some b => less a b
  | _, _ => false

/-- The call `data.Swap(i, j)` on the slice `x`. -/
def swapAt {α : Type} (x : List α) (i j : Nat) : List α :=
  match x[i]?, x[j]? with
  | some a, some b => (x.set i b).set j a
  | _, _ => x

/-- Halve `n` until it is zero and count the rounds; the first argument bounds them and
is not reached when it is at least `n`. -/
def bitsLenLoop : Nat → Nat → Nat
  | 0, _ => 0
  | rounds + 1, n => if n = 0 then 0 else bitsLenLoop rounds (n / 2) + 1

/-- The call `bits.Len(uint(n))`: the number of bits of `n`. -/
def bitsLen (n : Nat) : Nat := bitsLenLoop n n

/-- The inner loop of `insertionSort_func`:
`for j := i; j > a && data.Less(j, j-1); j-- { data.Swap(j, j-1) }`. -/
def insertionShift {α : Type} (less : α → α → Bool) (a : Nat) : Nat → List α → List α
  | 0, x => x
  | j + 1, x =>
    if a < j + 1 ∧ lessAt less x (j + 1) j = true then
      insertionShift less a j (swapAt x (j + 1) j)
    else x

/-- The outer loop of `insertionSort_func`, `for i := a + 1; i < b; i++`, with the number
of rounds left. -/
def insertionLoop {α : Type} (less : α → α → Bool) (a : Nat) : Nat → Nat → List α → List α
  | 0, _, x => x
  | rounds + 1, i, x => insertionLoop less a rounds (i + 1) (insertionShift less a i x)

/-- The function `insertionSort_func(data, a, b)`: insertion sort of `data[a:b]`. -/
def insertionSort_func {α : Type} (less : α → α → Bool) (x : List α) (a b : Nat) : List α :=
  insertionLoop less a (b - (a + 1)) (a + 1) x

/-- The function `siftDown_func(data, lo, hi, first)`, started at `root := lo`; the first
argument bounds the number of rounds (the root at least doubles in each). -/
def siftDown_func {α : Type} (less : α → α → Bool) (hi first : Nat) :
    Nat → Nat → List α → List α
  | 0, _, x => x
  | rounds + 1, root, x =>
    let child := 2 * root + 1
    if child ≥ hi then x
    else
      let child :=
        if child + 1 < hi ∧ lessAt less x (first + child) (first + child + 1) = true
        then child + 1 else child
      if lessAt less x (first + root) (first + child) = false then x
      else siftDown_func less hi first rounds child (swapAt x (first + root) (first + child))

/-- The first loop of `heapSort_func`: `for i := (hi - 1) / 2; i >= 0; i--`. -/
def heapBuild {α : Type} (less : α → α → Bool) (hi first : Nat) : Nat → List α → List α
  | 0, x => siftDown_func less hi first hi 0 x
  | i + 1, x => heapBuild less hi first i (siftDown_func less hi first hi (i + 1) x)

/-- The second loop of `heapSort_func`: `for i := hi - 1; i >= 0; i--`; the argument is
`i + 1`. -/
def heapPop {α : Type} (less : α → α → Bool) (first : Nat) : Nat → List α → List α
  | 0, x => x
  | i + 1, x =>
    heapPop less first i (siftDown_func less i first i 0 (swapAt x first (first + i)))

/-- The function `heapSort_func(data, a, b)`. -/
def heapSort_func {α : Type} (less : α → α → Bool) (x : List α) (a b : Nat) : List α :=
  let first := a
  let hi := b - a
  heapPop less first hi (heapBuild less hi first ((hi - 1) / 2) x)

/-- The loop of `breakPatterns_func`, `for i := 0; i < 3; i++`, with the number of rounds
left and the state of the generator. -/
def breakLoop {α : Type} (next : Nat → Nat) (a length modulus idx : Nat) :
    Nat → Nat → Nat → List α → List α
  | 0, _, _, x => x
  | rounds + 1, i, random, x =>
    let random := next random
    let other := random % modulus
    let other := if other ≥ length then other - length else other
    breakLoop next a length modulus idx rounds (i + 1) random (swapAt x (idx - 1 + i) (a + other))

/-- The function `breakPatterns_func(data, a, b)`.  `next` is the method `xorshift.Next`
of the generator seeded with the length. -/
def breakPatterns_func {α : Type} (next : Nat → Nat) (x : List α) (a b : Nat) : List α :=
  let length := b - a
  if length ≥ 8 then
    let modulus := 2 ^ bitsLen length
    let idx := a + (length / 4) * 2 - 1
    breakLoop next a length modulus idx 3 0 length x
  else x

/-- The function `order2_func(data, a, b, swaps)`: the two indices in order, and the
updated count of swaps. -/
def order2_func {α : Type} (less : α → α → Bool) (x : List α) (a b swaps : Nat) :
    Nat × Nat × Nat :=
  if lessAt less x b a = true then (b, a, swaps + 1) else (a, b, swaps)

/-- The function `median_func(data, a, b, c, swaps)`: the index of the median and the
updated count of swaps. -/
def median_func {α : Type} (less : α → α → Bool) (x : List α) (a b c swaps : Nat) :
    Nat × Nat :=
  let (a, b, swaps) := order2_func less x a b swaps
  let (b, _, swaps) := order2_func less x b c swaps
  let (_, b, swaps) := order2_func less x a b swaps
  (b, swaps)

/-- The function `medianAdjacent_func(data, a, swaps)`. -/
def medianAdjacent_func {α : Type} (less : α → α → Bool) (x : List α) (a swaps : Nat) :
    Nat × Nat :=
  median_func less x (a - 1) a (a + 1) swaps

/-- The type `sortedHint`. -/
inductive sortedHint
  | unknownHint
  | increasingHint
  | decreasingHint
deriving DecidableEq, Repr

/-- The function `choosePivot_func(data, a, b)`: the pivot and the hint. -/
def choosePivot_func {α : Type} (less : α → α → Bool) (x : List α) (a b : Nat) :
    Nat × sortedHint :=
  let shortestNinther := 50
  let maxSwaps := 4 * 3
  let l := b - a
  let swaps := 0
  let i := a + l / 4 * 1
  let j := a + l / 4 * 2
  let k := a + l / 4 * 3
  let (j, swaps) :=
    if l ≥ 8 then
      let (i, j, k, swaps) :=
        if l ≥ shortestNinther then
          let (i, swaps) := medianAdjacent_func less x i swaps
          let (j, swaps) := medianAdjacent_func less x j swaps
          let (k, swaps) := medianAdjacent_func less x k swaps
          (i, j, k, swaps)
        else (i, j, k, swaps)
      median_func less x i j k swaps
    else (j, swaps)
  if swaps = 0 then (j, .increasingHint)
  else if swaps = maxSwaps then (j, .decreasingHint)
  else (j, .unknownHint)

/-- The loop of `reverseRange_func`, `for i < j`, with a bound on the rounds left. -/
def reverseLoop {α : Type} : Nat → Nat → Nat → List α → List α
  | 0, _, _, x => x
  | rounds + 1, i, j, x => if i < j then reverseLoop rounds (i + 1) (j - 1) (swapAt x i j) else x

/-- The function `reverseRange_func(data, a, b)`. -/
def reverseRange_func {α : Type} (x : List α) (a b : Nat) : List α :=
  reverseLoop (b - a) a (b - 1) x

/-- The loop `for i < b && !data.Less(i, i-1) { i++ }` of `partialInsertionSort_func`. -/
def skipOrdered {α : Type} (less : α → α → Bool) (x : List α) (b : Nat) : Nat → Nat → Nat
  | 0, i => i
  | rounds + 1, i =>
    if i < b ∧ lessAt less x i (i - 1) = false then skipOrdered less x b rounds (i + 1) else i

/-- The loop `for j := i - 1; j >= 1; j--` of `partialInsertionSort_func`. -/
def shiftSmaller {α : Type} (less : α → α → Bool) : Nat → List α → List α
  | 0, x => x
  | j + 1, x =>
    if lessAt less x (j + 1) j = false then x else shiftSmaller less j (swapAt x (j + 1) j)

/-- The loop `for j := i + 1; j < b; j++` of `partialInsertionSort_func`. -/
def shiftGreater {α : Type} (less : α → α → Bool) (b : Nat) : Nat → Nat → List α → List α
  | 0, _, x => x
  | rounds + 1, j, x =>
    if j < b then
      if lessAt less x j (j - 1) = false then x
      else shiftGreater less b rounds (j + 1) (swapAt x j (j - 1))
    else x

/-- The loop `for j := 0; j < maxSteps; j++` of `partialInsertionSort_func`, with the
number of rounds left. -/
def partialInsertionLoop {α : Type} (less : α → α → Bool) (a b : Nat) :
    Nat → Nat → List α → Bool × List α
  | 0, _, x => (false, x)
  | rounds + 1, i, x =>
    let shortestShifting := 50
    let i := skipOrdered less x b (b - i) i
    if i = b then (true, x)
    else if b - a < shortestShifting then (false, x)
    else
      let x := swapAt x i (i - 1)
      let x := if i - a ≥ 2 then shiftSmaller less (i - 1) x else x
      let x := if b - i ≥ 2 then shiftGreater less b (b - (i + 1)) (i + 1) x else x
      partialInsertionLoop less a b rounds i x

/-- The function `partialInsertionSort_func(data, a, b)`: whether the slice is sorted at
the end, and the slice. -/
def partialInsertionSort_func {α : Type} (less : α → α → Bool) (x : List α) (a b : Nat) :
    Bool × List α :=
  let maxSteps := 5
  partialInsertionLoop less a b maxSteps (a + 1) x

/-- The loop `for i <= j && !data.Less(a, i) { i++ }` of `partitionEqual_func`. -/
def skipEqual {α : Type} (less : α → α → Bool) (x : List α) (a j : Nat) : Nat → Nat → Nat
  | 0, i => i
  | rounds + 1, i =>
    if i ≤ j ∧ lessAt less x a i = false then skipEqual less x a j rounds (i + 1) else i

/-- The loop `for i <= j && data.Less(a, j) { j-- }` of `partitionEqual_func`. -/
def skipGreater {α : Type} (less : α → α → Bool) (x : List α) (a i : Nat) : Nat → Nat → Nat
  | 0, j => j
  | rounds + 1, j =>
    if i ≤ j ∧ lessAt less x a j = true then skipGreater less x a i rounds (j - 1) else j

/-- The loop `for { ... }` of `partitionEqual_func`, with a bound on the rounds left: the
slice and `i` at the `break`. -/
def partitionEqualLoop {α : Type} (less : α → α → Bool) (a : Nat) :
    Nat → List α → Nat → Nat → List α × Nat
  | 0, x, i, _ => (x, i)
  | rounds + 1, x, i, j =>
    let i := skipEqual less x a j (j + 1 - i) i
    let j := skipGreater less x a i (j + 1 - i) j
    if i > j then (x, i)
    else partitionEqualLoop less a rounds (swapAt x i j) (i + 1) (j - 1)

/-- The function `partitionEqual_func(data, a, b, pivot)`: the slice and the new pivot. -/
def partitionEqual_func {α : Type} (less : α → α → Bool) (x : List α) (a b pivot : Nat) :
    List α × Nat :=
  let x := swapAt x a pivot
  partitionEqualLoop less a (b - a) x (a + 1) (b - 1)

/-- The loop `for i <= j && data.Less(i, a) { i++ }` of `partition_func`. -/
def skipLess {α : Type} (less : α → α → Bool) (x : List α) (a j : Nat) : Nat → Nat → Nat
  | 0, i => i
  | rounds + 1, i =>
    if i ≤ j ∧ lessAt less x i a = true then skipLess less x a j rounds (i + 1) else i

/-- The loop `for i <= j && !data.Less(j, a) { j-- }` of `partition_func`. -/
def skipNotLess {α : Type} (less : α → α → Bool) (x : List α) (a i : Nat) : Nat → Nat → Nat
  | 0, j => j
  | rounds + 1, j =>
    if i ≤ j ∧ lessAt less x j a = false then skipNotLess less x a i rounds (j - 1) else j

/-- The loop `for { ... }` of `partition_func`, with a bound on the rounds left: the
slice and `j` at the `break`. -/
def partitionLoop {α : Type} (less : α → α → Bool) (a : Nat) :
    Nat → List α → Nat → Nat → List α × Nat
  | 0, x, _, j => (x, j)
  | rounds + 1, x, i, j =>
    let i := skipLess less x a j (j + 1 - i) i
    let j := skipNotLess less x a i (j + 1 - i) j
    if i > j then (x, j)
    else partitionLoop less a rounds (swapAt x i j) (i + 1) (j - 1)

/-- The function `partition_func(data, a, b, pivot)`: the slice, the new pivot, and
whether the slice was already partitioned. -/
def partition_func {α : Type} (less : α → α → Bool) (x : List α) (a b pivot : Nat) :
    List α × Nat × Bool :=
  let x := swapAt x a pivot
  let i := a + 1
  let j := b - 1
  let i := skipLess less x a j (j + 1 - i) i
  let j := skipNotLess less x a i (j + 1 - i) j
  if i > j then (swapAt x j a, j, true)
  else
    let x := swapAt x i j
    let (x, j) := partitionLoop less a (b - a) x (i + 1) (j - 1)
    (swapAt x j a, j, false)

/-- The function `pdqsort_func(data, a, b, limit)`, with the two flags of its loop.  The
first argument bounds the rounds of the loop and the depth of the recursion together;
`none` when it is used up. -/
def pdqsort_func {α : Type} (less : α → α → Bool) (next : Nat → Nat) :
    Nat → List α → Nat → Nat → Nat → Bool → Bool → Option (List α)
  | 0, _, _, _, _, _, _ => none
  | fuel + 1, x, a, b, limit, wasBalanced, wasPartitioned =>
    let maxInsertion := 12
    let length := b - a
    if length ≤ maxInsertion then some (insertionSort_func less x a b)
    else if limit = 0 then some (heapSort_func less x a b)
    else
      let (x, limit) :=
        if wasBalanced = false then (breakPatterns_func next x a b, limit - 1) else (x, limit)
      let (pivot, hint) := choosePivot_func less x a b
      let (x, pivot, hint) :=
        if hint = .decreasingHint then
          (reverseRange_func x a b, (b - 1) - (pivot - a), sortedHint.increasingHint)
        else (x, pivot, hint)
      let (done, x) :=
        if wasBalanced = true ∧ wasPartitioned = true ∧ hint = .increasingHint then
          partialInsertionSort_func less x a b
        else (false, x)
      if done = true then some x
      else if a > 0 ∧ lessAt less x (a - 1) pivot = false then
        let (x, mid) := partitionEqual_func less x a b pivot
        pdqsort_func less next fuel x mid b limit wasBalanced wasPartitioned
      else
        let (x, mid, alreadyPartitioned) := partition_func less x a b pivot
        let wasPartitioned := alreadyPartitioned
        let leftLen := mid - a
        let rightLen := b - mid
        let balanceThreshold := length / 8
        if leftLen < rightLen then
          let wasBalanced := decide (leftLen ≥ balanceThreshold)
          match pdqsort_func less next fuel x a mid limit true true with
          | none => none
          | some x => pdqsort_func less next fuel x (mid + 1) b limit wasBalanced wasPartitioned
        else
          let wasBalanced := decide (rightLen ≥ balanceThreshold)
          match pdqsort_func less next fuel x (mid + 1) b limit true true with
          | none => none
          | some x => pdqsort_func less next fuel x a mid limit wasBalanced wasPartitioned

/-- The function `sort.Slice(x, less)`. -/
def sortSlice {α : Type} (less : α → α → Bool) (next : Nat → Nat) (x : List α) :
    Option (List α) :=
  let length := x.length
  let limit := bitsLen length
  pdqsort_func less next (length + 1) x 0 length limit true true

/-- Lines 48-54 of `getAndPrintRecentRepositories` with the implementation of
`sort.Slice` of Go 1.19 and later: sort by `LastModified` with `After`, then keep the
first 100 when there are more. -/
def rankAndSelectGo (next : Nat → Nat) (repos : List Repository) : Option (List Repository) :=
  match sortSlice lessRecent next repos with
  | none => none
  | some repos => some (if repos.length > 100 then repos.take 100 else repos)

/-! ## The manifest: `createCSV` -/

/-- A calendar date, as read from the clock by `time.Now()`. -/
structure Date where
  year : Nat
  month : Nat
  day : Nat
deriving DecidableEq, Repr

/-- Decimal digits of `n`, padded with zeros on the left to at least `width` characters. -/
def zeroPad (width n : Nat) : String :=
  String.mk (List.replicate (width - (toString n).length) '0') ++ toString n

/-- The call `t.Format("2006-01-02")`: year, month and day, separated by dashes. -/
def Date.Format (d : Date) : String :=
  zeroPad 4 d.year ++ "-" ++ zeroPad 2 d.month ++ "-" ++ zeroPad 2 d.day

/-- What the outside world answers to one call of `createCSV`. -/
structure CsvEnv where
  /-- The date given by `time.Now()`. -/
  now : Date
  /-- The error of `os.Create(fileName)`, if any. -/
  create : Option Error
  /-- The error reported by `csvWriter.Error()` after `Flush`, if any, together with the
  number of rows that had reached the file before it. -/
  write : Option (Error × Nat)

/-- A manifest file on disk: its path and its rows. -/
structure Manifest where
  path : String
  rows : List (List String)
deriving DecidableEq, Repr

/-- The function `createCSV` (main.go, lines 131-157).  `timeString` is the library method
`time.Time.String`.  The result is the returned error and the file left on disk. -/
def createCSV (timeString : Time → String) (env : CsvEnv) (username : String)
    (repos : List Repository) : Option Error × Option Manifest :=
  let currentDate := env.now.Format
  let fileName := "csv/" ++ username ++ "_" ++ currentDate ++ ".csv"
  match env.create with
  | some err => (some err, none)
  | none =>
    let headers := ["Username", "Date de récupération"]
    let data := [username, currentDate]
    let written := [headers, data] ++
      repos.map (fun repo => [repo.Name, timeString repo.LastModified])
    match env.write with
    | some (err, n) => (some err, some ⟨fileName, written.take n⟩)
    | none => (none, some ⟨fileName, written⟩)

/-! ## The archive: `filepath.Walk` and `createZipArchive` -/

/-- File contents. -/
abbrev Bytes := List Nat

/-- The kinds of directory entries that are not directories, as told by `Lstat`. -/
inductive FileKind
  | regular
  | symlink
  | special
deriving DecidableEq, Repr

/-- What is found at a path.
* `file kind content openErr copyErr`: an entry for which `info.IsDir()` is false;
  `content` is what reading it yields (for a symbolic link: through the link, as
  `os.Open` follows it), `openErr` the error of `os.Open(path)`, `copyErr` the error of
  `io.Copy` together with the number of bytes copied before it.
* `dir readErr children`: a directory, the error of listing it, and its entries in the
  order `filepath.Walk` visits them.
* `absent err`: `Lstat` fails with `err`. -/
inductive Node where
  | file (kind : FileKind) (content : Bytes) (openErr : Option Error)
      (copyErr : Option (Error × Nat))
  | dir (readErr : Option Error) (children : List (String × Node))
  | absent (lstatErr : Error)

/-- The method `info.IsDir()`. -/
def Node.IsDir : Node → Bool
  | .dir _ _ => true
  | _ => false

/-- The entries of a zip file under construction: name and content, in order of creation. -/
abbrev Zip := List (String × Bytes)

/-- A `filepath.WalkFunc`, with the zip writer it updates passed along.  A path is given
by its components below the root of the walk. -/
abbrev WalkFunc := List String → Node → Option Error → Zip → Option Error × Zip

mutual
/-- The library function `walk` behind `filepath.Walk`: call `fn` on the entry (with
the error of `Lstat` or of listing the directory, if any), then, for a directory that
could be listed and for which `fn` returned no error, walk its entries. -/
def walk (fn : WalkFunc) (path : List String) (info : Node) (z : Zip) : Option Error × Zip :=
  match info with
  | .dir readErr children =>
    match fn path (.dir readErr children) readErr z with
    | (some err1, z1) => (some err1, z1)
    | (none, z1) => if readErr.isSome then (none, z1) else walkList fn path children z1
  | .file kind content openErr copyErr => fn path (.file kind content openErr copyErr) none z
  | .absent err => fn path (.absent err) (some err) z
/-- The loop of `walk` over the names of a directory; the first error ends the walk. -/
def walkList (fn : WalkFunc) (path : List String) (children : List (String × Node))
    (z : Zip) : Option Error × Zip :=
  match children with
  | [] => (none, z)
  | (name, child) :: rest =>
    match walk fn (path ++ [name]) child z with
    | (some err, z1) => (some err, z1)
    | (none, z1) => walkList fn path rest z1
end

/-- The call `filepath.Rel(sourceDir, path)` for a path below `sourceDir`: the components
joined by the separator, and `.` for `sourceDir` itself. -/
def relativePath (path : List String) : String :=
  if path = [] then "." else "/".intercalate path

/-- What the outside world answers to one call of `createZipArchive`. -/
structure ArchiveEnv where
  /-- The error of `os.Create(targetFile)`, if any. -/
  createTarget : Option Error
  /-- What is found at `sourceDir`. -/
  source : Node
  /-- The error of `zipWriter.Create(name)`, if any. -/
  zipCreate : String → Option Error
  /-- The error of the deferred `zipWriter.Close()`, which writes the central directory
  and flushes what is buffered, if any. -/
  zipClose : Option Error
  /-- The error of the deferred `zipFile.Close()`, if any. -/
  fileClose : Option Error

/-- An archive file on disk: the entries handed to the zip writer, in order, and whether
the zip writer and the file were both closed without error.  Only then is the file a
complete archive, central directory included. -/
structure ArchiveFile where
  entries : Zip
  closed : Bool
deriving DecidableEq, Repr

/-- The closure passed to `filepath.Walk` in `createZipArchive` (lines 169-199). -/
def archiveEntry (env : ArchiveEnv) : WalkFunc := fun path info err z =>
  match err with
  | some err => (some err, z)
  | none =>
    let relativePath := relativePath path
    if info.IsDir then (none, z)
    else
      match info with
      | .file _ content openErr copyErr =>
        match openErr with
        | some err => (some err, z)
        | none =>
          match env.zipCreate relativePath with
          | some err => (some err, z)
          | none =>
            match copyErr with
            | some (err, n) => (some err, z ++ [(relativePath, content.take n)])
            | none => (none, z ++ [(relativePath, content)])
      | .dir _ _ => (none, z)
      | .absent err => (some err, z)

/-- The function `createZipArchive` (main.go, lines 159-201): the returned error and the
target file (`none` when the file could not be created).  The returned error is the one
of `filepath.Walk`; the deferred `zipWriter.Close()` and `zipFile.Close()` run on the
way out and their errors are dropped. -/
def createZipArchive (env : ArchiveEnv) : Option Error × Option ArchiveFile :=
  match env.createTarget with
  | some err => (some err, none)
  | none =>
    let (err, z) := walk (archiveEntry env) [] env.source []
    let closed := env.zipClose.isNone && env.fileClose.isNone
    (err, some ⟨z, closed⟩)

mutual
/-- The entries of a tree that are not directories, in walk order, each with its
relative path and the bytes read from it. -/
def nonDirEntries (path : List String) (info : Node) : Zip :=
  match info with
  | .file _ content _ _ => [(relativePath path, content)]
  | .absent _ => []
  | .dir _ children => nonDirEntriesOfList path children
/-- The entries that are not directories below the entries of one directory. -/
def nonDirEntriesOfList (path : List String) (children : List (String × Node)) : Zip :=
  match children with
  | [] => []
  | (name, child) :: rest =>
    nonDirEntries (path ++ [name]) child ++ nonDirEntriesOfList path rest
end

mutual
/-- The regular files of a tree in walk order, each with its relative path and content. -/
def regularFiles (path : List String) (info : Node) : Zip :=
  match info with
  | .file .regular content _ _ => [(relativePath path, content)]
  | .file _ _ _ _ => []
  | .absent _ => []
  | .dir _ children => regularFilesOfList path children
/-- The regular files below the entries of one directory. -/
def regularFilesOfList (path : List String) (children : List (String × Node)) : Zip :=
  match children with
  | [] => []
  | (name, child) :: rest =>
    regularFiles (path ++ [name]) child ++ regularFilesOfList path rest
end

mutual
/-- Every entry of the tree that is not a directory is a regular file. -/
def onlyRegular (info : Node) : Bool :=
  match info with
  | .file kind _ _ _ => decide (kind = .regular)
  | .absent _ => true
  | .dir _ children => onlyRegularList children
/-- The same for the entries of one directory. -/
def onlyRegularList (children : List (String × Node)) : Bool :=
  match children with
  | [] => true
  | (_, child) :: rest => onlyRegular child && onlyRegularList rest
end

/-! ## The pipeline: `getRepositories` and `getAndPrintRecentRepositories` -/

/-- The clone directory of a repository: `fmt.Sprintf("clones/%s", repo.Name)`. -/
def cloneDir (name : String) : String := "clones/" ++ name

/-- The archive of a repository: `fmt.Sprintf("archives/%s.zip", repo.Name)`. -/
def archivePath (name : String) : String := "archives/" ++ name ++ ".zip"

/-- The remote of a repository:
`fmt.Sprintf("https://github.com/%s/%s.git", username, repo.Name)`. -/
def cloneURL (username name : String) : String :=
  "https://github.com/" ++ username ++ "/" ++ name ++ ".git"

/-- The calls a worker makes outside the process, with their arguments. -/
inductive Call
  | gitClone (cloneURL cloneDir : String)
  | gitPull (cloneDir : String)
  | gitFetch (cloneDir : String)
  | createZipArchive (sourceDir targetFile : String)
deriving DecidableEq, Repr

/-- The four steps of a worker. -/
inductive Step
  | clone
  | pull
  | fetch
  | archive
deriving DecidableEq, Repr

/-- The step a call belongs to. -/
def Call.step : Call → Step
  | .gitClone _ _ => .clone
  | .gitPull _ => .pull
  | .gitFetch _ => .fetch
  | .createZipArchive _ _ => .archive

/-- The paths a call works on: the clone directory and, for `createZipArchive`, the
target file. -/
def Call.paths : Call → List String
  | .gitClone _ cloneDir => [cloneDir]
  | .gitPull cloneDir => [cloneDir]
  | .gitFetch cloneDir => [cloneDir]
  | .createZipArchive sourceDir targetFile => [sourceDir, targetFile]

/-- What the outside world answers to the calls of one worker. -/
structure WorkerEnv where
  /-- The error of `git clone`, if any. -/
  clone : Option Error
  /-- The error of `git pull`, if any. -/
  pull : Option Error
  /-- The error of `git fetch`, if any. -/
  fetch : Option Error
  /-- The file system as `createZipArchive` finds it. -/
  archive : ArchiveEnv

/-- What one worker did: its calls in order, what it printed, and the archive file it
left (`none`: no file). -/
structure WorkerLog where
  calls : List Call
  printed : List String
  archive : Option ArchiveFile
deriving DecidableEq, Repr

/-- The paths a worker works on. -/
def WorkerLog.paths (log : WorkerLog) : List String :=
  log.calls.flatMap Call.paths

/-- The body of the goroutine started for one repository (main.go, lines 65-92). -/
def worker (username : String) (env : WorkerEnv) (repo : Repository) : WorkerLog :=
  let cloneDir := cloneDir repo.Name
  let cloneURL := cloneURL username repo.Name
  match env.clone with
  | some err => ⟨[.gitClone cloneURL cloneDir], ["Erreur: " ++ err ++ "\n"], none⟩
  | none =>
    match env.pull with
    | some err =>
      ⟨[.gitClone cloneURL cloneDir, .gitPull cloneDir],
        ["Erreur lors du git pull" ++ repo.Name ++ ": " ++ err ++ "\n"], none⟩
    | none =>
      match env.fetch with
      | some err =>
        ⟨[.gitClone cloneURL cloneDir, .gitPull cloneDir, .gitFetch cloneDir],
          ["Erreur lors du git fetch " ++ repo.Name ++ ": " ++ err ++ "\n"], none⟩
      | none =>
        let calls := [.gitClone cloneURL cloneDir, .gitPull cloneDir, .gitFetch cloneDir,
          .createZipArchive cloneDir (archivePath repo.Name)]
        match createZipArchive env.archive with
        | (some err, file) =>
          ⟨calls, ["Erreur lors dde la création du ZIP " ++ repo.Name ++ ": " ++ err ++ "\n"],
            file⟩
        | (none, file) => ⟨calls, [], file⟩

/-- What the outside world answers during one run. -/
structure Env where
  /-- The outcome of building and sending the request, for a URL and an `Authorization`
  header: the response body or an error. -/
  http : String → String → Except Error String
  /-- The outcome of `decoder.Decode(&repos)` on a response body. -/
  decode : String → Except Error (List Repository)
  /-- The answers to `createCSV`. -/
  csv : CsvEnv
  /-- The answers to the worker started for the repository at a given position. -/
  worker : Nat → WorkerEnv

/-- The function `getRepositories` (main.go, lines 105-129). -/
def getRepositories (env : Env) (username token : String) : Except Error (List Repository) :=
  let url := "https://api.github.com/users/" ++ username ++ "/repos"
  match env.http url ("token " ++ token) with
  | .error err => .error err
  | .ok body =>
    match env.decode body with
    | .error err => .error err
    | .ok repos => .ok repos

/-- The loop of lines 63-93: one goroutine per repository, in slice order; `i` is the
position of the first repository of the list. -/
def launch (username : String) (envs : Nat → WorkerEnv) : Nat → List Repository → List WorkerLog
  | _, [] => []
  | i, repo :: rest => worker username (envs i) repo :: launch username envs (i + 1) rest

/-- The loop of lines 97-100: the output of the two `Printf` calls for each repository;
`i` is the position of the first repository of the list. -/
def printSummary (timeString : Time → String) : Nat → List Repository → List String
  | _, [] => []
  | i, repo :: rest =>
    (toString (i + 1) ++ ". Nom du référentiel: " ++ repo.Name ++ "\n") ::
    ("   Date de dernière modification: " ++ timeString repo.LastModified ++ "\n") ::
    printSummary timeString (i + 1) rest

/-- Everything one run of `getAndPrintRecentRepositories` does. -/
structure Run where
  /-- The returned error (`none` is `nil`). -/
  err : Option Error
  /-- The manifest file left on disk, if any. -/
  manifest : Option Manifest
  /-- The goroutines started, in the order of the loop that starts them. -/
  workers : List WorkerLog
  /-- The lines printed after `wg.Wait()`, one per `Printf` call. -/
  summary : List String
deriving DecidableEq, Repr

/-- The function `getAndPrintRecentRepositories` (main.go, lines 42-103). -/
def getAndPrintRecentRepositories (S : SortSlice) (timeString : Time → String) (env : Env)
    (username token : String) : Run :=
  match getRepositories env username token with
  | .error err => ⟨some err, none, [], []⟩
  | .ok repos =>
    let repos := rankAndSelect S repos
    match createCSV timeString env.csv username repos with
    | (some err, file) => ⟨some err, file, [], []⟩
    | (none, file) =>
      let workers := launch username env.worker 0 repos
      let summary := printSummary timeString 0 repos
      ⟨none, file, workers, summary⟩

/-! ## Sample inputs -/

/-- A stand-in for `time.Time.String` on sample inputs: the instant in decimal. -/
def sampleTimeString : Time → String := fun t => toString t

/-- The repositories `A`, `B`, `C` of the end-to-end scenario, pushed on 2024-01-01,
2024-03-01 and 2024-02-01 (instants in seconds since 1970). -/
def scenarioRepos : List Repository :=
  [⟨"A", 1704067200⟩, ⟨"B", 1709251200⟩, ⟨"C", 1706745600⟩]

/-- A stand-in for the method `xorshift.Next` on sample inputs. -/
def sampleNext : Nat → Nat := fun random => (random * 13 + 7) % 2 ^ 64

/-- Four repositories, three of them pushed at the same instant. -/
def fewTiedRepos : List Repository := [⟨"A", 5⟩, ⟨"B", 5⟩, ⟨"C", 9⟩, ⟨"D", 5⟩]

/-- Thirteen repositories: twelve pushed at the same instant, listed first, and one
pushed later. -/
def tiedRepos : List Repository :=
  [⟨"A", 5⟩, ⟨"B", 5⟩, ⟨"C", 5⟩, ⟨"D", 5⟩, ⟨"E", 5⟩, ⟨"F", 5⟩, ⟨"G", 5⟩, ⟨"H", 5⟩,
    ⟨"I", 5⟩, ⟨"J", 5⟩, ⟨"K", 5⟩, ⟨"L", 5⟩, ⟨"M", 9⟩]

/-- A list of 150 repositories. -/
def manyRepos : List Repository :=
  List.map (fun i : Nat => ⟨"r", Int.ofNat i⟩) (List.range 150)

/-- A clone with a regular file, a directory holding a regular file, and an empty
directory. -/
def sampleTree : Node :=
  .dir none [("README.md", .file .regular [72, 105] none none),
    ("src", .dir none [("main.go", .file .regular [112, 97] none none)]),
    ("empty", .dir none [])]

/-- A clone holding a regular file and a symbolic link to it. -/
def linkTree : Node :=
  .dir none [("a.txt", .file .regular [1] none none), ("link", .file .symlink [1] none none)]

/-- A file system on which `createZipArchive` meets no error. -/
def sampleArchiveEnv : ArchiveEnv := ⟨none, sampleTree, fun _ => none, none, none⟩

/-- A file system holding `linkTree`, on which `createZipArchive` meets no error. -/
def linkArchiveEnv : ArchiveEnv := ⟨none, linkTree, fun _ => none, none, none⟩

/-- A file system on which the walk meets no error and the deferred `zipWriter.Close()`
fails. -/
def closeFailingArchiveEnv : ArchiveEnv :=
  ⟨none, sampleTree, fun _ => none, some "write archives/A.zip: no space left on device", none⟩

/-- A worker all of whose steps succeed. -/
def succeedingWorker : WorkerEnv := ⟨none, none, none, sampleArchiveEnv⟩

/-- A worker whose `git clone`, `git pull` and `git fetch` would all fail. -/
def failingWorker : WorkerEnv :=
  ⟨some "exit status 128", some "exit status 1", some "exit status 1", sampleArchiveEnv⟩

/-- A clock and a disk on which `createCSV` meets no error. -/
def sampleCsvEnv : CsvEnv := ⟨⟨2024, 3, 5⟩, none, none⟩

/-- A run on the scenario in which every synchronization step of the first selected
repository fails and everything else succeeds. -/
def sampleEnv : Env where
  http := fun _ _ => .ok "[]"
  decode := fun _ => .ok scenarioRepos
  csv := sampleCsvEnv
  worker := fun i => if i = 0 then failingWorker else succeedingWorker

/-- A run in which the request to the hosting API fails. -/
def listFailingEnv : Env where
  http := fun _ _ => .error "dial tcp: no route to host"
  decode := fun _ => .ok scenarioRepos
  csv := sampleCsvEnv
  worker := fun _ => succeedingWorker

/-- A run in which the manifest file cannot be created. -/
def csvFailingEnv : Env where
  http := fun _ _ => .ok "[]"
  decode := fun _ => .ok scenarioRepos
  csv := ⟨⟨2024, 3, 5⟩, some "open csv/octocat_2024-03-05.csv: no such file or directory", none⟩
  worker := fun _ => succeedingWorker

/-- A run with a single repository and no failure. -/
def soloEnv : Env where
  http := fun _ _ => .ok "[]"
  decode := fun _ => .ok [⟨"A", 5⟩]
  csv := sampleCsvEnv
  worker := fun _ => succeedingWorker

/-! ## Auxiliary lemmas -/

/-! ### Ranking and selection -/

theorem lessRecent_strictWeakOrder : StrictWeakOrder lessRecent := by
  refine ⟨?_, ?_, ?_⟩
  · intro a; simp [lessRecent, Time.After]
  · intro a b c
    simp only [lessRecent, Time.After, decide_eq_true_eq]
    intro h1 h2
    exact lt_trans h2 h1
  · intro a b c
    simp only [lessRecent, Time.After, decide_eq_true_eq]
    intro h1
    rcases lt_or_le c.LastModified a.LastModified with h | h
    · exact Or.inl h
    · exact Or.inr (lt_of_lt_of_le h1 h)

/-- After `sort.Slice` no record is followed by a strictly more recent one. -/
theorem sort_pairwise (S : SortSlice) (repos : List Repository) :
    (S.sort lessRecent repos).Pairwise (fun a b => b.LastModified ≤ a.LastModified) := by
  refine (S.sorted lessRecent repos lessRecent_strictWeakOrder).imp ?_
  intro a b h
  simpa [lessRecent, Time.After] using h

theorem rankAndSelect_eq_take (S : SortSlice) (repos : List Repository) :
    rankAndSelect S repos = (S.sort lessRecent repos).take 100 := by
  unfold rankAndSelect
  by_cases h : (S.sort lessRecent repos).length > 100
  · simp [h]
  · simp only [h, if_false]
    exact (List.take_of_length_le (by omega)).symm

theorem rankAndSelect_pairwise (S : SortSlice) (repos : List Repository) :
    (rankAndSelect S repos).Pairwise (fun a b => b.LastModified ≤ a.LastModified) := by
  rw [rankAndSelect_eq_take]
  exact (sort_pairwise S repos).sublist (List.take_sublist _ _)

theorem rankAndSelect_length (S : SortSlice) (repos : List Repository) :
    (rankAndSelect S repos).length = min repos.length 100 := by
  rw [rankAndSelect_eq_take, List.length_take, (S.perm lessRecent repos).length_eq]
  exact Nat.min_comm _ _

/-! ### The implementation of `sort.Slice` -/

theorem swapAt_cons_succ {α : Type} (h : α) (t : List α) (i j : Nat) :
    swapAt (h :: t) (i + 1) (j + 1) = h :: swapAt t i j := by
  unfold swapAt
  simp only [List.getElem?_cons_succ]
  rcases t[i]? with _ | a <;> rcases t[j]? with _ | b <;> simp

theorem lessAt_cons_succ {α : Type} (less : α → α → Bool) (h : α) (t : List α) (i j : Nat) :
    lessAt less (h :: t) (i + 1) (j + 1) = lessAt less t i j := by
  unfold lessAt
  simp only [List.getElem?_cons_succ]

/-- Swapping two neighbours of which the later is `less` than the earlier keeps every
class of elements that `less` never relates in its order. -/
theorem filter_swapAt_adjacent {α : Type} (less : α → α → Bool) (p : α → Bool)
    (hp : ∀ a b, less a b = true → ¬ (p a = true ∧ p b = true)) :
    ∀ (x : List α) (j : Nat), lessAt less x (j + 1) j = true →
      (swapAt x (j + 1) j).filter p = x.filter p
  | [], j, h => by simp [swapAt]
  | [a], j, h => by simp [lessAt] at h
  | a :: b :: rest, 0, h => by
    have hba : less b a = true := by simpa [lessAt] using h
    have := hp b a hba
    simp only [swapAt, List.getElem?_cons_succ, List.getElem?_cons_zero, List.set_cons_succ,
      List.set_cons_zero]
    cases hpa : p a <;> cases hpb : p b <;> simp_all [List.filter_cons]
  | a :: b :: rest, j + 1, h => by
    rw [lessAt_cons_succ] at h
    rw [swapAt_cons_succ, List.filter_cons, List.filter_cons,
      filter_swapAt_adjacent less p hp (b :: rest) j h]

theorem filter_insertionShift {α : Type} (less : α → α → Bool) (p : α → Bool)
    (hp : ∀ a b, less a b = true → ¬ (p a = true ∧ p b = true)) (a : Nat) :
    ∀ (j : Nat) (x : List α), (insertionShift less a j x).filter p = x.filter p
  | 0, x => rfl
  | j + 1, x => by
    unfold insertionShift
    split
    · rename_i h
      rw [filter_insertionShift less p hp a j, filter_swapAt_adjacent less p hp x j h.2]
    · rfl

theorem filter_insertionLoop {α : Type} (less : α → α → Bool) (p : α → Bool)
    (hp : ∀ a b, less a b = true → ¬ (p a = true ∧ p b = true)) (a : Nat) :
    ∀ (rounds i : Nat) (x : List α), (insertionLoop less a rounds i x).filter p = x.filter p
  | 0, _, x => rfl
  | rounds + 1, i, x => by
    unfold insertionLoop
    rw [filter_insertionLoop less p hp a rounds, filter_insertionShift less p hp a]

theorem sortSlice_of_short {α : Type} (less : α → α → Bool) (next : Nat → Nat) (x : List α)
    (h : x.length ≤ 12) :
    sortSlice less next x = some (insertionSort_func less x 0 x.length) := by
  simp [sortSlice, pdqsort_func, h]

/-- A swap keeps the length. -/
theorem length_swapAt {α : Type} (x : List α) (i j : Nat) : (swapAt x i j).length = x.length := by
  unfold swapAt
  rcases x[i]? with _ | a <;> rcases x[j]? with _ | b <;> simp

theorem length_insertionShift {α : Type} (less : α → α → Bool) (a : Nat) :
    ∀ (j : Nat) (x : List α), (insertionShift less a j x).length = x.length
  | 0, x => rfl
  | j + 1, x => by
    unfold insertionShift
    split
    · rw [length_insertionShift less a j, length_swapAt]
    · rfl

theorem length_insertionLoop {α : Type} (less : α → α → Bool) (a : Nat) :
    ∀ (rounds i : Nat) (x : List α), (insertionLoop less a rounds i x).length = x.length
  | 0, _, x => rfl
  | rounds + 1, i, x => by
    unfold insertionLoop
    rw [length_insertionLoop less a rounds, length_insertionShift]

/-- On at most 12 repositories the selection is the insertion sort of the input. -/
theorem rankAndSelectGo_of_short (next : Nat → Nat) (repos : List Repository)
    (h : repos.length ≤ 12) :
    rankAndSelectGo next repos = some (insertionSort_func lessRecent repos 0 repos.length) := by
  have hlen : (insertionSort_func lessRecent repos 0 repos.length).length = repos.length :=
    length_insertionLoop lessRecent 0 _ _ repos
  unfold rankAndSelectGo
  rw [sortSlice_of_short lessRecent next repos h]
  have hnot : ¬ (insertionSort_func lessRecent repos 0 repos.length).length > 100 := by
    rw [hlen]; omega
  simp only [hnot, if_false]

/-- No record is later than another record with the same `LastModified`. -/
theorem lessRecent_not_same (t : Time) (a b : Repository) (h : lessRecent a b = true) :
    ¬ (decide (a.LastModified = t) = true ∧ decide (b.LastModified = t) = true) := by
  intro hab
  simp only [decide_eq_true_eq] at hab
  have hlt : b.LastModified < a.LastModified := by
    simpa [lessRecent, Time.After] using h
  rw [hab.1, hab.2] at hlt
  exact lt_irrefl _ hlt

/-! ### The pipeline -/

theorem launch_getElem? (username : String) (envs : Nat → WorkerEnv) :
    ∀ (repos : List Repository) (k i : Nat),
      (launch username envs k repos)[i]? =
        (repos[i]?).map (fun repo => worker username (envs (k + i)) repo)
  | [], _, _ => by simp [launch]
  | repo :: rest, k, 0 => by simp [launch]
  | repo :: rest, k, i + 1 => by
    simp only [launch, List.getElem?_cons_succ]
    rw [launch_getElem? username envs rest (k + 1) i]
    have : k + 1 + i = k + (i + 1) := by omega
    rw [this]

theorem launch_length (username : String) (envs : Nat → WorkerEnv) :
    ∀ (repos : List Repository) (k : Nat), (launch username envs k repos).length = repos.length
  | [], _ => rfl
  | repo :: rest, k => by
    simp only [launch, List.length_cons, launch_length username envs rest (k + 1)]

theorem printSummary_length (timeString : Time → String) :
    ∀ (repos : List Repository) (k : Nat),
      (printSummary timeString k repos).length = 2 * repos.length
  | [], _ => by simp [printSummary]
  | repo :: rest, k => by
    simp only [printSummary, List.length_cons, printSummary_length timeString rest (k + 1)]
    omega

theorem printSummary_getElem? (timeString : Time → String) :
    ∀ (repos : List Repository) (k i : Nat) (repo : Repository), repos[i]? = some repo →
      (printSummary timeString k repos)[2 * i]? =
        some (toString (k + i + 1) ++ ". Nom du référentiel: " ++ repo.Name ++ "\n") ∧
      (printSummary timeString k repos)[2 * i + 1]? =
        some ("   Date de dernière modification: " ++ timeString repo.LastModified ++ "\n")
  | [], _, _, _, h => by simp at h
  | r :: rest, k, 0, repo, h => by
    simp only [List.getElem?_cons_zero, Option.some.injEq] at h
    subst h
    simp [printSummary]
  | r :: rest, k, i + 1, repo, h => by
    simp only [List.getElem?_cons_succ] at h
    have ih := printSummary_getElem? timeString rest (k + 1) i repo h
    have e1 : 2 * (i + 1) = 2 * i + 1 + 1 := by omega
    have e2 : k + 1 + i + 1 = k + (i + 1) + 1 := by omega
    rw [e2] at ih
    simp only [printSummary, e1, List.getElem?_cons_succ]
    exact ih

/-- The run when listing and manifest writing succeed. -/
theorem run_of_success (S : SortSlice) (timeString : Time → String) (env : Env)
    (username token : String) (repos : List Repository)
    (hlist : getRepositories env username token = .ok repos)
    (hcsv : (createCSV timeString env.csv username (rankAndSelect S repos)).1 = none) :
    getAndPrintRecentRepositories S timeString env username token =
      ⟨none, (createCSV timeString env.csv username (rankAndSelect S repos)).2,
        launch username env.worker 0 (rankAndSelect S repos),
        printSummary timeString 0 (rankAndSelect S repos)⟩ := by
  unfold getAndPrintRecentRepositories
  rw [hlist]
  simp only
  rcases hc : createCSV timeString env.csv username (rankAndSelect S repos) with ⟨e, file⟩
  rw [hc] at hcsv
  simp only at hcsv
  subst hcsv
  rfl

theorem worker_steps (username : String) (env : WorkerEnv) (repo : Repository) :
    (worker username env repo).calls.map Call.step =
      if env.clone.isSome then [Step.clone]
      else if env.pull.isSome then [Step.clone, Step.pull]
      else if env.fetch.isSome then [Step.clone, Step.pull, Step.fetch]
      else [Step.clone, Step.pull, Step.fetch, Step.archive] := by
  unfold worker
  rcases hc : env.clone with _ | e1
  · rcases hp : env.pull with _ | e2
    · rcases hf : env.fetch with _ | e3
      · rcases hz : createZipArchive env.archive with ⟨_ | e4, file⟩ <;> simp [Call.step]
      · simp [Call.step]
    · simp [Call.step]
  · simp [Call.step]

theorem worker_calls (username : String) (env : WorkerEnv) (repo : Repository) :
    (worker username env repo).calls =
      if env.clone.isSome then
        [Call.gitClone (cloneURL username repo.Name) (cloneDir repo.Name)]
      else if env.pull.isSome then
        [Call.gitClone (cloneURL username repo.Name) (cloneDir repo.Name),
          Call.gitPull (cloneDir repo.Name)]
      else if env.fetch.isSome then
        [Call.gitClone (cloneURL username repo.Name) (cloneDir repo.Name),
          Call.gitPull (cloneDir repo.Name), Call.gitFetch (cloneDir repo.Name)]
      else
        [Call.gitClone (cloneURL username repo.Name) (cloneDir repo.Name),
          Call.gitPull (cloneDir repo.Name), Call.gitFetch (cloneDir repo.Name),
          Call.createZipArchive (cloneDir repo.Name) (archivePath repo.Name)] := by
  unfold worker
  rcases hc : env.clone with _ | e1
  · rcases hp : env.pull with _ | e2
    · rcases hf : env.fetch with _ | e3
      · rcases hz : createZipArchive env.archive with ⟨_ | e4, file⟩ <;> simp
      · simp
    · simp
  · simp

mutual
/-- A walk that returns no error has appended the non-directory entries of the tree. -/
theorem walk_archiveEntry (env : ArchiveEnv) :
    ∀ (info : Node) (path : List String) (z z1 : Zip),
      walk (archiveEntry env) path info z = (none, z1) → z1 = z ++ nonDirEntries path info
  | .file kind content openErr copyErr, path, z, z1, h => by
    simp only [walk, archiveEntry, Node.IsDir] at h
    rcases openErr with _ | e
    · rcases hz : env.zipCreate (relativePath path) with _ | e2
      · rcases copyErr with _ | ⟨e3, n⟩
        · simp only [hz] at h
          simp only [nonDirEntries]
          simpa using h.symm
        · simp [hz] at h
      · simp [hz] at h
    · simp at h
  | .absent err, path, z, z1, h => by
    simp [walk, archiveEntry] at h
  | .dir readErr children, path, z, z1, h => by
    rcases readErr with _ | e
    · simp only [walk, archiveEntry, Node.IsDir] at h
      simp only [nonDirEntries]
      simpa using walkList_archiveEntry env children path z z1 (by simpa using h)
    · simp [walk, archiveEntry] at h
/-- The same for the entries of one directory. -/
theorem walkList_archiveEntry (env : ArchiveEnv) :
    ∀ (children : List (String × Node)) (path : List String) (z z1 : Zip),
      walkList (archiveEntry env) path children z = (none, z1) →
        z1 = z ++ nonDirEntriesOfList path children
  | [], path, z, z1, h => by
    simp only [walkList, Prod.mk.injEq, true_and] at h
    simp [nonDirEntriesOfList, h]
  | (name, child) :: rest, path, z, z1, h => by
    simp only [walkList] at h
    rcases hw : walk (archiveEntry env) (path ++ [name]) child z with ⟨_ | e, z2⟩
    · rw [hw] at h
      simp only at h
      have h1 := walk_archiveEntry env child (path ++ [name]) z z2 hw
      have h2 := walkList_archiveEntry env rest path z2 z1 h
      rw [h2, h1, nonDirEntriesOfList, List.append_assoc]
    · rw [hw] at h
      simp at h
end

/-- When `createZipArchive` returns no error, the entries handed to the zip writer are the
non-directory entries of the source; the file is complete when both deferred closes
succeed. -/
theorem createZipArchive_of_success (env : ArchiveEnv)
    (h : (createZipArchive env).1 = none) :
    (createZipArchive env).2 =
      some ⟨nonDirEntries [] env.source, env.zipClose.isNone && env.fileClose.isNone⟩ := by
  unfold createZipArchive at h ⊢
  rcases hc : env.createTarget with _ | e
  · rw [hc] at h
    simp only at h ⊢
    rcases hw : walk (archiveEntry env) [] env.source [] with ⟨err, z⟩
    rw [hw] at h
    simp only at h
    subst h
    have := walk_archiveEntry env env.source [] [] z hw
    simp [this]
  · rw [hc] at h
    simp at h

mutual
/-- Every regular file is among the non-directory entries, in the same order. -/
theorem regularFiles_sublist :
    ∀ (info : Node) (path : List String),
      (regularFiles path info).Sublist (nonDirEntries path info)
  | .file kind content openErr copyErr, path => by
    cases kind <;> simp [regularFiles, nonDirEntries]
  | .absent err, path => by simp [regularFiles, nonDirEntries]
  | .dir readErr children, path => by
    simp only [regularFiles, nonDirEntries]
    exact regularFilesOfList_sublist children path
/-- The same for the entries of one directory. -/
theorem regularFilesOfList_sublist :
    ∀ (children : List (String × Node)) (path : List String),
      (regularFilesOfList path children).Sublist (nonDirEntriesOfList path children)
  | [], path => by simp [regularFilesOfList, nonDirEntriesOfList]
  | (name, child) :: rest, path => by
    simp only [regularFilesOfList, nonDirEntriesOfList]
    exact (regularFiles_sublist child (path ++ [name])).append
      (regularFilesOfList_sublist rest path)
end

mutual
/-- In a tree of directories and regular files the non-directory entries are the
regular files. -/
theorem nonDirEntries_of_onlyRegular :
    ∀ (info : Node) (path : List String), onlyRegular info = true →
      nonDirEntries path info = regularFiles path info
  | .file kind content openErr copyErr, path, h => by
    cases kind <;> simp_all [onlyRegular, regularFiles, nonDirEntries]
  | .absent err, path, _ => by simp [regularFiles, nonDirEntries]
  | .dir readErr children, path, h => by
    simp only [regularFiles, nonDirEntries]
    exact nonDirEntriesOfList_of_onlyRegular children path (by simpa [onlyRegular] using h)
/-- The same for the entries of one directory. -/
theorem nonDirEntriesOfList_of_onlyRegular :
    ∀ (children : List (String × Node)) (path : List String),
      onlyRegularList children = true →
      nonDirEntriesOfList path children = regularFilesOfList path children
  | [], path, _ => by simp [regularFilesOfList, nonDirEntriesOfList]
  | (name, child) :: rest, path, h => by
    simp only [onlyRegularList, Bool.and_eq_true] at h
    simp only [regularFilesOfList, nonDirEntriesOfList]
    rw [nonDirEntries_of_onlyRegular child (path ++ [name]) h.1,
      nonDirEntriesOfList_of_onlyRegular rest path h.2]
end

/-! ### Paths -/

theorem string_append_left_cancel (p a b : String) (h : p ++ a = p ++ b) : a = b := by
  have := congrArg String.data h
  simp only [String.data_append, List.append_cancel_left_eq] at this
  exact String.ext this

theorem string_append_right_cancel (a b s : String) (h : a ++ s = b ++ s) : a = b := by
  have := congrArg String.data h
  simp only [String.data_append, List.append_cancel_right_eq] at this
  exact String.ext this

theorem cloneDir_injective : Function.Injective cloneDir := by
  intro a b h
  exact string_append_left_cancel _ a b h

theorem archivePath_injective : Function.Injective archivePath := by
  intro a b h
  unfold archivePath at h
  exact string_append_left_cancel _ a b (string_append_right_cancel _ _ _ h)

theorem cloneDir_ne_archivePath (a b : String) : cloneDir a ≠ archivePath b := by
  intro h
  have := congrArg String.data h
  simp [cloneDir, archivePath, String.data_append] at this

theorem worker_paths (username : String) (env : WorkerEnv) (repo : Repository) :
    ∀ p ∈ (worker username env repo).paths,
      p = cloneDir repo.Name ∨ p = archivePath repo.Name := by
  intro p hp
  unfold WorkerLog.paths worker at hp
  rcases hc : env.clone with _ | e1
  · rcases hpl : env.pull with _ | e2
    · rcases hf : env.fetch with _ | e3
      · rcases hz : createZipArchive env.archive with ⟨_ | e4, file⟩ <;>
          simp [hc, hpl, hf, hz, Call.paths, List.flatMap] at hp <;> tauto
      · simp [hc, hpl, hf, Call.paths, List.flatMap] at hp; tauto
    · simp [hc, hpl, Call.paths, List.flatMap] at hp; tauto
  · simp [hc, Call.paths, List.flatMap] at hp; tauto

/-! ## The claims -/

/-- Claim C1 fails: in the scenario, the worker of the first selected repository meets a
failing `git clone` and makes no further call, although the claim has it go on to pull,
fetch and archive. -/
theorem C1_clone_failure_ends_worker :
    ((getAndPrintRecentRepositories insertionSortSlice sampleTimeString sampleEnv
        "octocat" "").workers.map (fun log => log.calls.map Call.step)) =
      [[Step.clone], [Step.clone, Step.pull, Step.fetch, Step.archive],
        [Step.clone, Step.pull, Step.fetch, Step.archive]] ∧
    ¬ ∀ log ∈ (getAndPrintRecentRepositories insertionSortSlice sampleTimeString sampleEnv
        "octocat" "").workers,
      log.calls.map Call.step = [Step.clone, Step.pull, Step.fetch, Step.archive] := by
  decide

/-- Claim C1, amended: when listing and manifest writing succeeded, a worker is started
for every selected repository, and it attempts clone, pull, fetch and
`createZipArchive` in that order and stops at the first step that fails: pull is
attempted only after a successful clone, fetch only after a successful pull, and the
archive only after all three synchronization steps succeeded. -/
theorem C1_worker_stops_at_first_failure (S : SortSlice) (timeString : Time → String)
    (env : Env) (username token : String) (repos : List Repository)
    (hlist : getRepositories env username token = .ok repos)
    (hcsv : (createCSV timeString env.csv username (rankAndSelect S repos)).1 = none) :
    (getAndPrintRecentRepositories S timeString env username token).workers.length =
      (rankAndSelect S repos).length ∧
    ∀ (i : Nat) (repo : Repository), (rankAndSelect S repos)[i]? = some repo →
      ∃ log, (getAndPrintRecentRepositories S timeString env username token).workers[i]? =
          some log ∧
        log.calls =
          (if (env.worker i).clone.isSome then
            [Call.gitClone (cloneURL username repo.Name) (cloneDir repo.Name)]
          else if (env.worker i).pull.isSome then
            [Call.gitClone (cloneURL username repo.Name) (cloneDir repo.Name),
              Call.gitPull (cloneDir repo.Name)]
          else if (env.worker i).fetch.isSome then
            [Call.gitClone (cloneURL username repo.Name) (cloneDir repo.Name),
              Call.gitPull (cloneDir repo.Name), Call.gitFetch (cloneDir repo.Name)]
          else
            [Call.gitClone (cloneURL username repo.Name) (cloneDir repo.Name),
              Call.gitPull (cloneDir repo.Name), Call.gitFetch (cloneDir repo.Name),
              Call.createZipArchive (cloneDir repo.Name) (archivePath repo.Name)]) ∧
        log.calls.map Call.step =
          (if (env.worker i).clone.isSome then [Step.clone]
          else if (env.worker i).pull.isSome then [Step.clone, Step.pull]
          else if (env.worker i).fetch.isSome then [Step.clone, Step.pull, Step.fetch]
          else [Step.clone, Step.pull, Step.fetch, Step.archive]) := by
  rw [run_of_success S timeString env username token repos hlist hcsv]
  refine ⟨launch_length username env.worker _ 0, ?_⟩
  intro i repo hrepo
  refine ⟨worker username (env.worker i) repo, ?_, worker_calls username (env.worker i) repo,
    worker_steps username (env.worker i) repo⟩
  simp only [launch_getElem?, Nat.zero_add, hrepo, Option.map_some']

/-- Claim C1, amended, on the scenario: three workers for three selected repositories;
the first is the one started for `B`, its clone fails and it makes no other call; the
second, for `C`, makes all four calls. -/
theorem C1_worker_stops_at_first_failure_witness :
    getRepositories sampleEnv "octocat" "" = .ok scenarioRepos ∧
    (getAndPrintRecentRepositories insertionSortSlice sampleTimeString sampleEnv
      "octocat" "").workers.length = 3 ∧
    (∃ log, (getAndPrintRecentRepositories insertionSortSlice sampleTimeString sampleEnv
        "octocat" "").workers[0]? = some log ∧
      log.calls = [Call.gitClone "https://github.com/octocat/B.git" "clones/B"]) ∧
    ∃ log, (getAndPrintRecentRepositories insertionSortSlice sampleTimeString sampleEnv
        "octocat" "").workers[1]? = some log ∧
      log.calls.map Call.step = [Step.clone, Step.pull, Step.fetch, Step.archive] := by
  have h := C1_worker_stops_at_first_failure insertionSortSlice sampleTimeString sampleEnv
    "octocat" "" scenarioRepos rfl rfl
  obtain ⟨log0, h01, h02, _⟩ := h.2 0 ⟨"B", 1709251200⟩ (by decide)
  obtain ⟨log1, h11, _, h13⟩ := h.2 1 ⟨"C", 1706745600⟩ (by decide)
  exact ⟨rfl, h.1, ⟨log0, h01, h02⟩, ⟨log1, h11, h13⟩⟩

/-- Claim C3: for every input list, the empty one included, sorting with `After` and
truncating yields a sequence in which no record is followed, anywhere later, by one with
a later `LastModified` (the values are non-increasing from first to last), and whose
length is the smaller of the input length and 100. -/
theorem C3_selection_sorted_and_capped (S : SortSlice) (repos : List Repository) :
    (rankAndSelect S repos).Pairwise (fun a b => b.LastModified ≤ a.LastModified) ∧
    (∀ i j : Nat, i ≤ j → ∀ a b, (rankAndSelect S repos)[i]? = some a →
      (rankAndSelect S repos)[j]? = some b → b.LastModified ≤ a.LastModified) ∧
    (rankAndSelect S repos).length = min repos.length 100 := by
  refine ⟨rankAndSelect_pairwise S repos, ?_, rankAndSelect_length S repos⟩
  intro i j hij a b ha hb
  rcases Nat.lt_or_eq_of_le hij with hlt | heq
  · obtain ⟨hi, rfl⟩ := List.getElem?_eq_some.mp ha
    obtain ⟨hj, rfl⟩ := List.getElem?_eq_some.mp hb
    exact List.pairwise_iff_getElem.mp (rankAndSelect_pairwise S repos) i j hi hj hlt
  · subst heq
    rw [ha] at hb
    cases hb
    exact le_refl _

/-- Claim C3 on the end-to-end scenario, where `A`, `B`, `C` are selected in the order
`B`, `C`, `A`, on the empty list, and on a list of 150 repositories, of which 100 are
selected. -/
theorem C3_selection_sorted_and_capped_witness :
    rankAndSelect insertionSortSlice scenarioRepos =
      [⟨"B", 1709251200⟩, ⟨"C", 1706745600⟩, ⟨"A", 1704067200⟩] ∧
    (rankAndSelect insertionSortSlice scenarioRepos).length = 3 ∧
    (rankAndSelect insertionSortSlice []).length = 0 ∧
    (rankAndSelect insertionSortSlice manyRepos).length = 100 :=
  ⟨by decide, (C3_selection_sorted_and_capped insertionSortSlice scenarioRepos).2.2,
    (C3_selection_sorted_and_capped insertionSortSlice []).2.2,
    (C3_selection_sorted_and_capped insertionSortSlice manyRepos).2.2.trans
      (by simp [manyRepos])⟩

/-- Claim C4 fails: `sort.Slice` is not a stable sort.  On twelve repositories pushed at
the same instant followed by one pushed later, the code selects `M, G, C, D, E, F, A,
H, I, J, K, L, B`: among the tied ones `G` comes before `C` and `A`, and `B` comes
last, against their input order.  The generator of `breakPatterns_func` is not reached,
so the result is the same for every generator. -/
theorem C4_ties_are_reordered :
    rankAndSelectGo sampleNext tiedRepos =
      some [⟨"M", 9⟩, ⟨"G", 5⟩, ⟨"C", 5⟩, ⟨"D", 5⟩, ⟨"E", 5⟩, ⟨"F", 5⟩, ⟨"A", 5⟩, ⟨"H", 5⟩,
        ⟨"I", 5⟩, ⟨"J", 5⟩, ⟨"K", 5⟩, ⟨"L", 5⟩, ⟨"B", 5⟩] ∧
    ¬ StableSelection tiedRepos
      [⟨"M", 9⟩, ⟨"G", 5⟩, ⟨"C", 5⟩, ⟨"D", 5⟩, ⟨"E", 5⟩, ⟨"F", 5⟩, ⟨"A", 5⟩, ⟨"H", 5⟩,
        ⟨"I", 5⟩, ⟨"J", 5⟩, ⟨"K", 5⟩, ⟨"L", 5⟩, ⟨"B", 5⟩] ∧
    (∀ next : Nat → Nat,
      rankAndSelectGo next tiedRepos = rankAndSelectGo sampleNext tiedRepos) := by
  refine ⟨by decide, ?_, ?_⟩
  · intro hst
    have h5 := hst 5
    revert h5
    decide
  · intro next
    rfl

/-- Claim C4, amended: ranking is stable for inputs of at most 12 repositories, on which
`sort.Slice` is an insertion sort: the selection is produced, and the repositories of
any given `LastModified` appear in it exactly as they appear in the input, in the same
relative order.  (On longer inputs repositories with equal `LastModified` may change
their relative order.) -/
theorem C4_stable_up_to_twelve (next : Nat → Nat) (repos : List Repository)
    (h : repos.length ≤ 12) :
    ∃ selected, rankAndSelectGo next repos = some selected ∧
      (∀ t : Time, selected.filter (fun r => r.LastModified = t) =
        repos.filter (fun r => r.LastModified = t)) ∧
      StableSelection repos selected := by
  have key : ∀ t : Time,
      (insertionSort_func lessRecent repos 0 repos.length).filter
          (fun r => r.LastModified = t) =
        repos.filter (fun r => r.LastModified = t) := by
    intro t
    exact filter_insertionLoop lessRecent (fun r => decide (r.LastModified = t))
      (lessRecent_not_same t) 0 _ _ repos
  refine ⟨_, rankAndSelectGo_of_short next repos h, key, ?_⟩
  intro t
  rw [key t]

/-- Claim C4, amended, on four repositories of which three are tied: the later one comes
first and the tied ones keep their input order. -/
theorem C4_stable_up_to_twelve_witness :
    fewTiedRepos.length ≤ 12 ∧
    rankAndSelectGo sampleNext fewTiedRepos =
      some [⟨"C", 9⟩, ⟨"A", 5⟩, ⟨"B", 5⟩, ⟨"D", 5⟩] ∧
    StableSelection fewTiedRepos [⟨"C", 9⟩, ⟨"A", 5⟩, ⟨"B", 5⟩, ⟨"D", 5⟩] := by
  obtain ⟨selected, h1, _, h3⟩ := C4_stable_up_to_twelve sampleNext fewTiedRepos (by decide)
  have h : rankAndSelectGo sampleNext fewTiedRepos =
      some [⟨"C", 9⟩, ⟨"A", 5⟩, ⟨"B", 5⟩, ⟨"D", 5⟩] := by decide
  rw [h] at h1
  cases h1
  exact ⟨by decide, h, h3⟩

/-- Claim C5: the selected output is the first `min (len input) 100` elements of a
permutation of the input.  With at most 100 entries it is a permutation of the whole
input; with more, no omitted record has a later `LastModified` than a retained one. -/
theorem C5_selection_keeps_most_recent (S : SortSlice) (repos : List Repository) :
    ∃ ranked omitted : List Repository,
      ranked.Perm repos ∧
      rankAndSelect S repos = ranked.take (min repos.length 100) ∧
      ranked = rankAndSelect S repos ++ omitted ∧
      (repos.length ≤ 100 → (rankAndSelect S repos).Perm repos) ∧
      (100 < repos.length → ∀ o ∈ omitted, ∀ k ∈ rankAndSelect S repos,
        o.LastModified ≤ k.LastModified) := by
  refine ⟨S.sort lessRecent repos, (S.sort lessRecent repos).drop 100, S.perm _ _, ?_, ?_, ?_, ?_⟩
  · rw [rankAndSelect_eq_take]
    have hlen := (S.perm lessRecent repos).length_eq
    rcases Nat.le_total repos.length 100 with h | h
    · rw [Nat.min_eq_left h, List.take_of_length_le (by omega),
        List.take_of_length_le (by omega)]
    · rw [Nat.min_eq_right h]
  · rw [rankAndSelect_eq_take, List.take_append_drop]
  · intro h
    rw [rankAndSelect_eq_take, List.take_of_length_le]
    · exact S.perm _ _
    · rw [(S.perm lessRecent repos).length_eq]; exact h
  · intro _ o ho k hk
    rw [rankAndSelect_eq_take] at hk
    have hp := sort_pairwise S repos
    rw [← List.take_append_drop 100 (S.sort lessRecent repos)] at hp
    exact (List.pairwise_append.mp hp).2.2 k hk o ho

/-- Claim C5 on the end-to-end scenario: with three repositories the selection is a
permutation of the whole input. -/
theorem C5_selection_keeps_most_recent_witness :
    scenarioRepos.length ≤ 100 ∧
    (rankAndSelect insertionSortSlice scenarioRepos).Perm scenarioRepos := by
  obtain ⟨_, _, _, _, _, h, _⟩ :=
    C5_selection_keeps_most_recent insertionSortSlice scenarioRepos
  exact ⟨by decide, h (by decide)⟩

/-- Claim C6: if `getRepositories` or `createCSV` returns an error, then
`getAndPrintRecentRepositories` returns that error, no worker is started (so no clone,
pull, fetch or `createZipArchive` is executed for any repository), and no summary is
printed. -/
theorem C6_early_errors_abort (S : SortSlice) (timeString : Time → String) (env : Env)
    (username token : String) (err : Error)
    (h : getRepositories env username token = .error err ∨
      ∃ repos, getRepositories env username token = .ok repos ∧
        (createCSV timeString env.csv username (rankAndSelect S repos)).1 = some err) :
    (getAndPrintRecentRepositories S timeString env username token).err = some err ∧
    (getAndPrintRecentRepositories S timeString env username token).workers = [] ∧
    (getAndPrintRecentRepositories S timeString env username token).summary = [] := by
  unfold getAndPrintRecentRepositories
  rcases h with h | ⟨repos, hl, hc⟩
  · rw [h]
    exact ⟨rfl, rfl, rfl⟩
  · rw [hl]
    simp only
    rcases hcsv : createCSV timeString env.csv username (rankAndSelect S repos) with ⟨e, file⟩
    rw [hcsv] at hc
    simp only at hc
    subst hc
    exact ⟨rfl, rfl, rfl⟩

/-- Claim C6 on a run in which the request fails and on a run in which the manifest file
cannot be created. -/
theorem C6_early_errors_abort_witness :
    ((getAndPrintRecentRepositories insertionSortSlice sampleTimeString listFailingEnv
        "octocat" "").err = some "dial tcp: no route to host" ∧
      (getAndPrintRecentRepositories insertionSortSlice sampleTimeString listFailingEnv
        "octocat" "").workers = [] ∧
      (getAndPrintRecentRepositories insertionSortSlice sampleTimeString listFailingEnv
        "octocat" "").summary = []) ∧
    ((getAndPrintRecentRepositories insertionSortSlice sampleTimeString csvFailingEnv
        "octocat" "").err =
        some "open csv/octocat_2024-03-05.csv: no such file or directory" ∧
      (getAndPrintRecentRepositories insertionSortSlice sampleTimeString csvFailingEnv
        "octocat" "").workers = [] ∧
      (getAndPrintRecentRepositories insertionSortSlice sampleTimeString csvFailingEnv
        "octocat" "").summary = []) :=
  ⟨C6_early_errors_abort insertionSortSlice sampleTimeString listFailingEnv "octocat" ""
      "dial tcp: no route to host" (Or.inl rfl),
    C6_early_errors_abort insertionSortSlice sampleTimeString csvFailingEnv "octocat" ""
      "open csv/octocat_2024-03-05.csv: no such file or directory"
      (Or.inr ⟨scenarioRepos, rfl, rfl⟩)⟩

/-- Claim C7 fails: `createZipArchive` skips directories and archives everything else.
A symbolic link to a file is not a regular file, yet it gets an entry, with the bytes
read through it.  Moreover the errors of the deferred closes are dropped: when
`zipWriter.Close()` fails, `createZipArchive` still returns no error and leaves an
archive that is not complete. -/
theorem C7_symlink_gets_an_entry :
    createZipArchive linkArchiveEnv =
      (none, some ⟨[("a.txt", [1]), ("link", [1])], true⟩) ∧
    regularFiles [] linkTree = [("a.txt", [1])] ∧
    (createZipArchive linkArchiveEnv).2.map ArchiveFile.entries ≠
      some (regularFiles [] linkTree) ∧
    createZipArchive closeFailingArchiveEnv =
      (none, some ⟨[("README.md", [72, 105]), ("src/main.go", [112, 97])], false⟩) := by
  decide

/-- Claim C7, amended: when `createZipArchive` returns no error and the deferred closes
of the zip writer and of the file meet no error, the archive is complete and its
entries are exactly the entries of the tree that are not directories, one archive entry
each, named by the path relative to the source root and holding the bytes read from it,
in walk order; directories, empty ones included, contribute no entries.  Every regular
file is among them with its relative path and exact content, and in a tree that holds
only directories and regular files the entries are exactly the regular files. -/
theorem C7_archive_holds_non_directories (env : ArchiveEnv)
    (h : (createZipArchive env).1 = none)
    (hz : env.zipClose = none) (hf : env.fileClose = none) :
    (createZipArchive env).2 = some ⟨nonDirEntries [] env.source, true⟩ ∧
    (regularFiles [] env.source).Sublist (nonDirEntries [] env.source) ∧
    (onlyRegular env.source = true →
      (createZipArchive env).2 = some ⟨regularFiles [] env.source, true⟩) := by
  have key : (createZipArchive env).2 = some ⟨nonDirEntries [] env.source, true⟩ := by
    rw [createZipArchive_of_success env h, hz, hf]
    rfl
  refine ⟨key, regularFiles_sublist env.source [], ?_⟩
  intro hreg
  rw [key, nonDirEntries_of_onlyRegular env.source [] hreg]

/-- Claim C7, amended, on a clone with a file, a directory holding a file, and an empty
directory: two entries, none for the directories. -/
theorem C7_archive_holds_non_directories_witness :
    (createZipArchive sampleArchiveEnv).1 = none ∧
    sampleArchiveEnv.zipClose = none ∧ sampleArchiveEnv.fileClose = none ∧
    (createZipArchive sampleArchiveEnv).2 =
      some ⟨[("README.md", [72, 105]), ("src/main.go", [112, 97])], true⟩ :=
  ⟨by decide, rfl, rfl,
    (C7_archive_holds_non_directories sampleArchiveEnv (by decide) rfl rfl).1⟩

/-- Claim C8 fails on the header: the second cell of the first row is the French label
`Date de récupération`, not `RetrievalDate`. -/
theorem C8_header_label_differs :
    (createCSV sampleTimeString sampleCsvEnv "octocat" [⟨"A", 5⟩]) =
      (none, some ⟨"csv/octocat_2024-03-05.csv",
        [["Username", "Date de récupération"], ["octocat", "2024-03-05"], ["A", "5"]]⟩) ∧
    (createCSV sampleTimeString sampleCsvEnv "octocat" [⟨"A", 5⟩]).2.map
      (fun file => file.rows.head?) ≠ some (some ["Username", "RetrievalDate"]) := by
  decide

/-- Claim C8, amended: when `createCSV` returns no error, it has written to the path
`csv/{username}_{YYYY-MM-DD}.csv` exactly `2 + len(selected)` rows: the header row
`[Username, Date de récupération]`, the row `[username, currentDate]`, then one row
`[name, lastModified as string]` per selected repository in selected-set order.  The
content is a function of the username, the current date and the selected set only: two
successful calls on the same date with the same arguments leave the same file. -/
theorem C8_manifest_layout (timeString : Time → String) (env : CsvEnv) (username : String)
    (repos : List Repository)
    (h : (createCSV timeString env username repos).1 = none) :
    (createCSV timeString env username repos).2 =
      some ⟨"csv/" ++ username ++ "_" ++ env.now.Format ++ ".csv",
        [["Username", "Date de récupération"], [username, env.now.Format]] ++
          repos.map (fun repo => [repo.Name, timeString repo.LastModified])⟩ ∧
    (∀ file, (createCSV timeString env username repos).2 = some file →
      file.rows.length = 2 + repos.length) ∧
    ∀ env2 : CsvEnv, env2.now = env.now →
      (createCSV timeString env2 username repos).1 = none →
      (createCSV timeString env2 username repos).2 =
        (createCSV timeString env username repos).2 := by
  have key : ∀ e : CsvEnv, (createCSV timeString e username repos).1 = none →
      (createCSV timeString e username repos).2 =
        some ⟨"csv/" ++ username ++ "_" ++ e.now.Format ++ ".csv",
          [["Username", "Date de récupération"], [username, e.now.Format]] ++
            repos.map (fun repo => [repo.Name, timeString repo.LastModified])⟩ := by
    intro e he
    unfold createCSV at he ⊢
    rcases hc : e.create with _ | err
    · rcases hw : e.write with _ | ⟨err, n⟩
      · simp [hc, hw]
      · simp [hc, hw] at he
    · simp [hc] at he
  refine ⟨key env h, ?_, ?_⟩
  · intro file hfile
    rw [key env h] at hfile
    cases hfile
    simp
    omega
  · intro env2 hnow h2
    rw [key env h, key env2 h2, hnow]

/-- Claim C8, amended, on a selected set of one repository: three rows. -/
theorem C8_manifest_layout_witness :
    (createCSV sampleTimeString sampleCsvEnv "octocat" [⟨"A", 5⟩]).1 = none ∧
    (createCSV sampleTimeString sampleCsvEnv "octocat" [⟨"A", 5⟩]).2 =
      some ⟨"csv/octocat_2024-03-05.csv",
        [["Username", "Date de récupération"], ["octocat", "2024-03-05"], ["A", "5"]]⟩ :=
  ⟨by decide, (C8_manifest_layout sampleTimeString sampleCsvEnv "octocat" [⟨"A", 5⟩]
    (by decide)).1⟩

/-- Claim C9 fails: the summary has two lines per repository.  For a single selected
repository it consists of a line with rank and name followed by a line with the
timestamp, not of one line holding all three. -/
theorem C9_summary_takes_two_lines :
    (getAndPrintRecentRepositories insertionSortSlice sampleTimeString soloEnv
      "octocat" "").summary =
      ["1. Nom du référentiel: A\n", "   Date de dernière modification: 5\n"] ∧
    (getAndPrintRecentRepositories insertionSortSlice sampleTimeString soloEnv
      "octocat" "").summary.length ≠
      (rankAndSelect insertionSortSlice [⟨"A", 5⟩]).length := by
  decide

/-- Claim C9, amended: the summary printed after the join consists of two lines per
selected repository, in selected-set order: for the repository of rank `i + 1`, a line
with the rank and the name, then a line with its last-modified timestamp.  It depends on
the selected set only: the outcomes of the workers do not change it. -/
theorem C9_summary_follows_selection (S : SortSlice) (timeString : Time → String)
    (env : Env) (username token : String) (repos : List Repository)
    (hlist : getRepositories env username token = .ok repos)
    (hcsv : (createCSV timeString env.csv username (rankAndSelect S repos)).1 = none) :
    (getAndPrintRecentRepositories S timeString env username token).summary.length =
      2 * (rankAndSelect S repos).length ∧
    (∀ (i : Nat) (repo : Repository), (rankAndSelect S repos)[i]? = some repo →
      (getAndPrintRecentRepositories S timeString env username token).summary[2 * i]? =
        some (toString (i + 1) ++ ". Nom du référentiel: " ++ repo.Name ++ "\n") ∧
      (getAndPrintRecentRepositories S timeString env username token).summary[2 * i + 1]? =
        some ("   Date de dernière modification: " ++ timeString repo.LastModified ++
          "\n")) ∧
    ∀ others : Nat → WorkerEnv,
      (getAndPrintRecentRepositories S timeString ⟨env.http, env.decode, env.csv, others⟩
        username token).summary =
      (getAndPrintRecentRepositories S timeString env username token).summary := by
  rw [run_of_success S timeString env username token repos hlist hcsv]
  refine ⟨printSummary_length timeString _ 0, ?_, ?_⟩
  · intro i repo hrepo
    have h := printSummary_getElem? timeString (rankAndSelect S repos) 0 i repo hrepo
    simpa only [Nat.zero_add] using h
  · intro others
    rw [run_of_success S timeString ⟨env.http, env.decode, env.csv, others⟩ username token
      repos hlist hcsv]

/-- Claim C9, amended, on the scenario: six lines, the first two for `B`. -/
theorem C9_summary_follows_selection_witness :
    getRepositories sampleEnv "octocat" "" = .ok scenarioRepos ∧
    (getAndPrintRecentRepositories insertionSortSlice sampleTimeString sampleEnv
      "octocat" "").summary.length = 2 * 3 ∧
    (getAndPrintRecentRepositories insertionSortSlice sampleTimeString sampleEnv
      "octocat" "").summary[2 * 0]? = some "1. Nom du référentiel: B\n" ∧
    (getAndPrintRecentRepositories insertionSortSlice sampleTimeString sampleEnv
      "octocat" "").summary[2 * 0 + 1]? =
      some "   Date de dernière modification: 1709251200\n" := by
  have h := C9_summary_follows_selection insertionSortSlice sampleTimeString sampleEnv
    "octocat" "" scenarioRepos rfl rfl
  refine ⟨rfl, h.1, ?_, ?_⟩
  · exact (h.2.1 0 ⟨"B", 1709251200⟩ (by decide)).1
  · exact (h.2.1 0 ⟨"B", 1709251200⟩ (by decide)).2

/-- Claim C10: the clone directory and the archive path are injective functions of the
repository name, and no clone directory equals an archive path.  Hence, in a selected
set with pairwise distinct names, the workers of two different repositories work on no
common path, whatever the outcomes of their steps. -/
theorem C10_paths_are_disjoint (username : String) (repos : List Repository)
    (hnames : (repos.map Repository.Name).Nodup) :
    Function.Injective cloneDir ∧ Function.Injective archivePath ∧
    (∀ a b : String, cloneDir a ≠ archivePath b) ∧
    (repos.map (fun repo => cloneDir repo.Name) ++
      repos.map (fun repo => archivePath repo.Name)).Nodup ∧
    ∀ (i j : Nat) (ri rj : Repository) (ei ej : WorkerEnv), i ≠ j →
      repos[i]? = some ri → repos[j]? = some rj →
      List.Disjoint (worker username ei ri).paths (worker username ej rj).paths := by
  have hne : ∀ (i j : Nat) (ri rj : Repository), i ≠ j →
      repos[i]? = some ri → repos[j]? = some rj → ri.Name ≠ rj.Name := by
    intro i j ri rj hij hi hj heq
    obtain ⟨hi', rfl⟩ := List.getElem?_eq_some.mp hi
    obtain ⟨hj', rfl⟩ := List.getElem?_eq_some.mp hj
    have hi2 : i < (repos.map Repository.Name).length := by simpa using hi'
    have hj2 : j < (repos.map Repository.Name).length := by simpa using hj'
    have hel : (repos.map Repository.Name)[i] = (repos.map Repository.Name)[j] := by
      simpa using heq
    exact hij ((hnames.getElem_inj_iff).mp hel)
  refine ⟨cloneDir_injective, archivePath_injective, cloneDir_ne_archivePath, ?_, ?_⟩
  · rw [List.nodup_append]
    refine ⟨?_, ?_, ?_⟩
    · have : repos.map (fun repo => cloneDir repo.Name) =
          (repos.map Repository.Name).map cloneDir := by simp
      rw [this]
      exact hnames.map cloneDir_injective
    · have : repos.map (fun repo => archivePath repo.Name) =
          (repos.map Repository.Name).map archivePath := by simp
      rw [this]
      exact hnames.map archivePath_injective
    · intro p hp hq
      simp only [List.mem_map] at hp hq
      obtain ⟨a, _, rfl⟩ := hp
      obtain ⟨b, _, hb⟩ := hq
      exact cloneDir_ne_archivePath _ _ hb.symm
  · intro i j ri rj ei ej hij hi hj p hp hq
    have hn := hne i j ri rj hij hi hj
    rcases worker_paths username ei ri p hp with h1 | h1 <;>
      rcases worker_paths username ej rj p hq with h2 | h2
    · exact hn (cloneDir_injective (h1.symm.trans h2))
    · exact cloneDir_ne_archivePath _ _ (h1.symm.trans h2)
    · exact cloneDir_ne_archivePath _ _ (h2.symm.trans h1)
    · exact hn (archivePath_injective (h1.symm.trans h2))

/-- Claim C10 on the scenario: the names `A`, `B`, `C` are distinct, the six paths are
distinct, and the workers of `A` and `B` share no path. -/
theorem C10_paths_are_disjoint_witness :
    (scenarioRepos.map Repository.Name).Nodup ∧
    (scenarioRepos.map (fun repo => cloneDir repo.Name) ++
      scenarioRepos.map (fun repo => archivePath repo.Name)).Nodup ∧
    List.Disjoint (worker "octocat" succeedingWorker ⟨"A", 1704067200⟩).paths
      (worker "octocat" succeedingWorker ⟨"B", 1709251200⟩).paths :=
  ⟨by decide,
    (C10_paths_are_disjoint "octocat" scenarioRepos (by decide)).2.2.2.1,
    (C10_paths_are_disjoint "octocat" scenarioRepos (by decide)).2.2.2.2 0 1
      ⟨"A", 1704067200⟩ ⟨"B", 1709251200⟩ succeedingWorker succeedingWorker
      (by decide) rfl rfl⟩

end ApiGithubGo
